import Mathlib

/-!
Verification of the symbolic-geometry engine of `geometry-sketchpad`.

The embedding below translates, over exact rational arithmetic, the parts of
the repository that the claims concern:

* `src/old/src/resources/spatial_hash_table.rs` — the spatial hash index
  (`SpatialHashTable` with `init_viewport`, `insert_point`, `insert_line`,
  `insert_circle`, `remove_from_all`, `get_cell`, `get_unlimited_cell`,
  `get_cell_by_x_y`, `get_neighbor_entities_of_point` and the border tests);
* `src/core/lib/src/systems/data_managers/dependency_graph_manager.rs` — the
  dependency-graph event handling (`insert_point`/`insert_line`/`insert_circle`
  and `remove_point`/`remove_line`/`remove_circle` dispatched from `run`);
* `src/core/lib/src/math/vector2.rs` — `Vector2` arithmetic.

`f64` values are modelled as rationals (`ℚ`); arithmetic in the source is
ordinary field arithmetic except where noted.  The line rasterizer divides by
`dir.y.abs()`, which is `0` for exactly horizontal segments; IEEE-754 then
produces `±inf`/`NaN`, so the rasterizer's loop state is modelled by `F64`, a
rational extended with `pinf`, `ninf` and `nan`, with the IEEE semantics of
the operations the loop performs.  Square roots leave `ℚ`; wherever the source
takes a magnitude (`Vector2::normalized`, the distance tests of
`insert_circle`) the embedding either takes the exact magnitude as an explicit
parameter or compares squared distances, which is equivalent because `sqrt` is
monotone on nonnegative reals.
-/

namespace GSK

/-- Entities (`specs::Entity`) are opaque stable identifiers; modelled as `ℕ`. -/
abbrev Entity := ℕ

/-- `Vector2 { x: f64, y: f64 }` from `src/core/lib/src/math/vector2.rs`. -/
structure Vec2 where
  x : ℚ
  y : ℚ
deriving DecidableEq, Repr

/-- `impl Add for Vector2`. -/
def Vec2.add (a b : Vec2) : Vec2 := ⟨a.x + b.x, a.y + b.y⟩

/-- `impl Sub for Vector2`. -/
def Vec2.sub (a b : Vec2) : Vec2 := ⟨a.x - b.x, a.y - b.y⟩

/-- `impl Mul<f64> for Vector2`. -/
def Vec2.mulScalar (a : Vec2) (c : ℚ) : Vec2 := ⟨a.x * c, a.y * c⟩

/-- `impl Div<f64> for Vector2` (componentwise division, no zero guard). -/
def Vec2.divScalar (a : Vec2) (c : ℚ) : Vec2 := ⟨a.x / c, a.y / c⟩

/-- The square of `Vector2::magnitude` (`(x*x + y*y).sqrt()`): the square
root itself leaves `ℚ`, so comparisons of magnitudes are phrased through
squares throughout. -/
def Vec2.magnitudeSq (a : Vec2) : ℚ := a.x * a.x + a.y * a.y

/-- `Vector2::normalized`, which is `self / self.magnitude()` with no check
for a zero magnitude.  The magnitude `m = sqrt(x*x + y*y)` is irrational in
general, so it is supplied as a parameter; the hypotheses `m * m =
v.magnitudeSq` and `0 < m` in the theorems pin it to the exact magnitude. -/
def Vec2.normalizedWith (v : Vec2) (m : ℚ) : Vec2 := v.divScalar m

/-- Modelled from the spec: the `Viewport` resource and `ViewportTransform`
(§6 "Viewport transform": virtual ↔ actual conversion and the actual-space
bounding rectangle) are not under `src/`; the conversion is kept abstract as
function fields, and the actual width/height are the data `init_viewport`
reads. -/
structure Viewport where
  toActualFn : Vec2 → Vec2
  scalarToActualFn : ℚ → ℚ
  actualWidth : ℚ
  actualHeight : ℚ

/-- `static TILE_SIZE : f64 = 40.0` (spatial_hash_table.rs line 8). -/
def TILE_SIZE : ℚ := 40

/-- `SpatialHashTable<T>` with `T` instantiated at `Entity`.  The
`Vec<HashSet<T>>` of length `x_tiles * y_tiles` is modelled as a total
function from indices to finite sets; only indices `< x_tiles * y_tiles`
correspond to real tiles. -/
structure SpatialHashTable where
  x_tiles : ℕ
  y_tiles : ℕ
  table : ℕ → Finset Entity

/-- `Default for SpatialHashTable`. -/
def SpatialHashTable.default : SpatialHashTable := ⟨0, 0, fun _ => ∅⟩

/-- `get_cell_by_x_y`: `(y_tile * self.x_tiles) + x_tile`. -/
def SpatialHashTable.getCellByXY (t : SpatialHashTable) (xt yt : ℕ) : ℕ :=
  yt * t.x_tiles + xt

/-- `get_cell` (point in actual space): floor-divide both coordinates by
`TILE_SIZE` and return the flat index when in bounds, `None` otherwise. -/
def SpatialHashTable.getCell (t : SpatialHashTable) (p : Vec2) : Option ℕ :=
  let xt : ℤ := ⌊p.x / TILE_SIZE⌋
  let yt : ℤ := ⌊p.y / TILE_SIZE⌋
  if 0 ≤ xt ∧ xt < (t.x_tiles : ℤ) ∧ 0 ≤ yt ∧ yt < (t.y_tiles : ℤ) then
    some (t.getCellByXY xt.toNat yt.toNat)
  else
    none

/-- `get_unlimited_cell`: the tile coordinates without the bounds check. -/
def getUnlimitedCell (p : Vec2) : ℤ × ℤ :=
  (⌊p.x / TILE_SIZE⌋, ⌊p.y / TILE_SIZE⌋)

/-- `init_viewport`: `x_tiles = (vp.actual_width() / TILE_SIZE).ceil() as
usize` (and likewise for `y_tiles`; the `as usize` cast clamps negative
ceilings to `0`, which is `Int.toNat`), and a fresh table of empty sets. -/
def SpatialHashTable.initViewport (_t : SpatialHashTable) (vp : Viewport) :
    SpatialHashTable :=
  { x_tiles := (⌈vp.actualWidth / TILE_SIZE⌉ : ℤ).toNat
    y_tiles := (⌈vp.actualHeight / TILE_SIZE⌉ : ℤ).toNat
    table := fun _ => ∅ }

/-- `insert_point` (point in virtual space): map to actual space, insert into
the single covering tile when `get_cell` succeeds, otherwise do nothing. -/
def SpatialHashTable.insertPoint (t : SpatialHashTable) (ent : Entity)
    (p : Vec2) (vp : Viewport) : SpatialHashTable :=
  match t.getCell (vp.toActualFn p) with
  | some id => { t with table := Function.update t.table id (insert ent (t.table id)) }
  | none => t

/-- `remove_from_all`: remove the entity from every cell's set. -/
def SpatialHashTable.removeFromAll (t : SpatialHashTable) (ent : Entity) :
    SpatialHashTable :=
  { t with table := fun i => (t.table i).erase ent }

/-- `is_left_border`: `tile % self.x_tiles == 0`. -/
def SpatialHashTable.isLeftBorder (t : SpatialHashTable) (tile : ℕ) : Prop :=
  tile % t.x_tiles = 0

/-- `is_right_border`: `tile % self.x_tiles == self.x_tiles - 1`. -/
def SpatialHashTable.isRightBorder (t : SpatialHashTable) (tile : ℕ) : Prop :=
  tile % t.x_tiles = t.x_tiles - 1

/-- `is_top_border`: `tile / self.x_tiles < 1`. -/
def SpatialHashTable.isTopBorder (t : SpatialHashTable) (tile : ℕ) : Prop :=
  tile / t.x_tiles < 1

/-- `is_bottom_border`: `tile / self.x_tiles >= self.y_tiles - 1`. -/
def SpatialHashTable.isBottomBorder (t : SpatialHashTable) (tile : ℕ) : Prop :=
  tile / t.x_tiles ≥ t.y_tiles - 1

instance (t : SpatialHashTable) (tile : ℕ) : Decidable (t.isLeftBorder tile) :=
  inferInstanceAs (Decidable (_ = _))
instance (t : SpatialHashTable) (tile : ℕ) : Decidable (t.isRightBorder tile) :=
  inferInstanceAs (Decidable (_ = _))
instance (t : SpatialHashTable) (tile : ℕ) : Decidable (t.isTopBorder tile) :=
  inferInstanceAs (Decidable (_ < _))
instance (t : SpatialHashTable) (tile : ℕ) : Decidable (t.isBottomBorder tile) :=
  inferInstanceAs (Decidable (_ ≤ _))

/-- The `tiles` vector built by `get_neighbor_entities_of_point` around a
center tile: the center, then the four side neighbors and four corner
neighbors, each pushed only when the corresponding borders are absent.
Subtraction is `ℕ`-subtraction, matching `usize`; the guards make every
subtraction exact. -/
def SpatialHashTable.neighborTiles (t : SpatialHashTable) (c : ℕ) : List ℕ :=
  [c]
  ++ (if ¬ t.isLeftBorder c then [c - 1] else [])
  ++ (if ¬ t.isRightBorder c then [c + 1] else [])
  ++ (if ¬ t.isTopBorder c then [c - t.x_tiles] else [])
  ++ (if ¬ t.isBottomBorder c then [c + t.x_tiles] else [])
  ++ (if ¬ t.isLeftBorder c ∧ ¬ t.isTopBorder c then [c - t.x_tiles - 1] else [])
  ++ (if ¬ t.isLeftBorder c ∧ ¬ t.isBottomBorder c then [c + t.x_tiles - 1] else [])
  ++ (if ¬ t.isRightBorder c ∧ ¬ t.isTopBorder c then [c - t.x_tiles + 1] else [])
  ++ (if ¬ t.isRightBorder c ∧ ¬ t.isBottomBorder c then [c + t.x_tiles + 1] else [])

/-- `get_neighbor_entities_of_point` (point in virtual space): `None` when the
point maps outside the grid, otherwise the entities of the up-to-9 neighbor
tiles, flattened and deduplicated (`itertools::unique`).  `HashSet` iteration
order is unspecified in the source, so only the membership and freedom from
duplicates of the resulting list are meaningful; the model lists each tile's
set in sorted order and uses `List.dedup`. -/
def SpatialHashTable.getNeighborEntitiesOfPoint (t : SpatialHashTable)
    (p : Vec2) (vp : Viewport) : Option (List Entity) :=
  match t.getCell (vp.toActualFn p) with
  | some c =>
      some (((t.neighborTiles c).map fun tile =>
        (t.table tile).sort (· ≤ ·)).flatten.dedup)
  | none => none

/-! ### IEEE-754 extended scalars for the line rasterizer

`insert_line` computes `tile_offset_y / dir.y.abs() * dir.x`; when the clipped
segment is exactly horizontal the divisor is `0.0` and IEEE-754 produces
`±inf` or `NaN`, values a plain `ℚ` cannot represent.  `F64` is a rational
extended with those values, and the operations below follow IEEE-754 on
exactly the cases the loop exercises (the divisors that occur in the source —
`dir.y.abs()` and `TILE_SIZE` — are nonnegative, i.e. `+0.0` when zero). -/

inductive F64 where
  | fin (q : ℚ)
  | pinf
  | ninf
  | nan
deriving DecidableEq, Repr

/-- IEEE addition on the modelled values. -/
def F64.add : F64 → F64 → F64
  | nan, _ => nan
  | _, nan => nan
  | fin a, fin b => fin (a + b)
  | fin _, pinf => pinf
  | fin _, ninf => ninf
  | pinf, fin _ => pinf
  | ninf, fin _ => ninf
  | pinf, pinf => pinf
  | ninf, ninf => ninf
  | pinf, ninf => nan
  | ninf, pinf => nan

/-- IEEE multiplication by a finite scalar. -/
def F64.mulQ : F64 → ℚ → F64
  | nan, _ => nan
  | fin a, c => fin (a * c)
  | pinf, c => if 0 < c then pinf else if c < 0 then ninf else nan
  | ninf, c => if 0 < c then ninf else if c < 0 then pinf else nan

/-- IEEE division by a finite scalar, treating a zero divisor as `+0.0` (the
divisors in the source are `dir.y.abs()` and `TILE_SIZE`, both nonnegative). -/
def F64.divQ : F64 → ℚ → F64
  | nan, _ => nan
  | fin a, c =>
      if c = 0 then (if a = 0 then nan else if 0 < a then pinf else ninf)
      else fin (a / c)
  | pinf, c => if c < 0 then ninf else pinf
  | ninf, c => if c < 0 then pinf else ninf

/-- `f64` truncation toward zero (the rounding of an `as i64` cast). -/
def qtrunc (q : ℚ) : ℤ := if q < 0 then -⌊-q⌋ else ⌊q⌋

/-- The saturation of an `f64 → i64` `as` cast. -/
def satI64 (z : ℤ) : ℤ := max (-(2 ^ 63)) (min (2 ^ 63 - 1) z)

/-- `as i64` on an `f64`: truncate toward zero and saturate; `NaN` casts to
`0`, the infinities to the extreme `i64` values. -/
def F64.toI64 : F64 → ℤ
  | nan => 0
  | pinf => 2 ^ 63 - 1
  | ninf => -(2 ^ 63)
  | fin q => satI64 (qtrunc q)

/-- `as usize` on an `i64`: reinterpreting cast, i.e. reduction mod `2^64`. -/
def castUsize (z : ℤ) : ℕ := (z % (2 ^ 64)).toNat

/-- Fold `f` over the integer range `lo..hi` (as in a Rust `for` loop),
stopping early at the first error. -/
def intRangeFold (f : ℤ → α → Except Unit α) (lo hi : ℤ) (a : α) :
    Except Unit α :=
  if _h : lo < hi then
    match f lo a with
    | .error e => .error e
    | .ok b => intRangeFold f (lo + 1) hi b
  else .ok a
termination_by (hi - lo).toNat
decreasing_by omega

/-- Insert `ent` into cell `idx` of a raw table of `xT * yT` cells; an index
at or beyond the cell count is the panic/assertion-failure case of the Rust
`assert!(tile < self.x_tiles * self.y_tiles)` and `self.table[tile]`
indexing, modelled as `Except.error`. -/
def checkedInsertTbl (xT yT : ℕ) (tbl : ℕ → Finset Entity) (idx : ℕ)
    (ent : Entity) : Except Unit (ℕ → Finset Entity) :=
  if idx < xT * yT then
    .ok (Function.update tbl idx (insert ent (tbl idx)))
  else
    .error ()

/-- The cell index `get_cell_by_x_y(tile_x as usize, curr_y_tile as usize)`
computed inside the DDA loop of `insert_line`: the two `i64` tile
coordinates are cast to `usize` (wrapping for negative values) and combined
with release-mode wrapping `usize` arithmetic. -/
def ddaCellIndex (xT : ℕ) (tileX currYTile : ℤ) : ℕ :=
  (castUsize currYTile * xT + castUsize tileX) % 2 ^ 64

/-- One row of the DDA walk of `insert_line` (lines 78–91 of
spatial_hash_table.rs): `for tile_x in curr_x_tile..(next_x_tile + 1)`,
inserting when `tile_x <= end_x_tile && tile_x < x_tiles`, with the
assertion `tile < x_tiles * y_tiles` before each table write. -/
def ddaRow (xT yT : ℕ) (ent : Entity) (endXTile currYTile : ℤ)
    (currXTile stop : ℤ) (tbl : ℕ → Finset Entity) :
    Except Unit (ℕ → Finset Entity) :=
  intRangeFold (fun tileX acc =>
    if tileX ≤ endXTile ∧ tileX < (xT : ℤ) then
      checkedInsertTbl xT yT acc (ddaCellIndex xT tileX currYTile) ent
    else .ok acc) currXTile stop tbl

/-- The DDA loop of `insert_line` (lines 62–96): walk row by row while
`curr_x_tile <= end_x_tile && 0 <= curr_y_tile && curr_y_tile < y_tiles`.
The loop state `curr_x`/`next_x` is an `F64` because the step
`tile_offset_y / dir.y.abs() * dir.x` divides by `dir.y.abs()`, which is `0`
for exactly horizontal segments. -/
def ddaLoop (xT yT : ℕ) (ent : Entity) (dir : Vec2) (endXTile : ℤ)
    (currX : F64) (currY : ℚ) (currXTile currYTile : ℤ)
    (tbl : ℕ → Finset Entity) : Except Unit (ℕ → Finset Entity) :=
  if _h : currXTile ≤ endXTile ∧ 0 ≤ currYTile ∧ currYTile < (yT : ℤ) then
    let yiI : ℤ := if dir.y < 0 then -1 else 1
    let nextY : ℚ := ((currYTile + (if 0 < dir.y then 1 else 0) : ℤ) : ℚ) * TILE_SIZE
    let tileOffsetY : ℚ := (nextY - currY) * (yiI : ℚ)
    let nextXDiff : F64 := ((F64.fin tileOffsetY).divQ |dir.y|).mulQ dir.x
    let nextX : F64 := currX.add nextXDiff
    let nextXTile : ℤ := (nextX.divQ TILE_SIZE).toI64
    match ddaRow xT yT ent endXTile currYTile currXTile (nextXTile + 1) tbl with
    | .error e => .error e
    | .ok tbl2 =>
        ddaLoop xT yT ent dir endXTile nextX nextY nextXTile (currYTile + yiI) tbl2
  else .ok tbl
termination_by (if dir.y < 0 then currYTile + 1 else (yT : ℤ) - currYTile).toNat
decreasing_by
  by_cases hsign : dir.y < 0 <;>
    simp only [hsign, dite_true, dite_false, ite_true, ite_false,
      if_true, if_false] <;> omega

/-- `insert_line` from the clipped actual-space segment onward (lines 46–97).

The clipping itself (`l.to_actual(vp)` and `actual.intersect(aabb)`, from
`utilities::Intersect`) is code of this repository that is not under `src/`;
per the spec it yields the visible segment or nothing, so this function takes
the clip result `(q1, q2)` directly (`insert_line` is a no-op when the clip is
empty).  `m` is the exact magnitude of the clipped segment,
`sqrt((q2-q1)·(q2-q1))`, supplied as a parameter because square roots leave
`ℚ`; theorems pin it with `m * m = (q2 - q1).magnitudeSq` and `0 ≤ m`. -/
def SpatialHashTable.insertLineClipped (t : SpatialHashTable) (ent : Entity)
    (q1 q2 : Vec2) (m : ℚ) : Except Unit SpatialHashTable :=
  let p1 := if q1.x > q2.x then q2 else q1
  let p2 := if q1.x > q2.x then q1 else q2
  let dir : Vec2 := ((p2.sub p1).divScalar m).mulScalar (1 / 1000000)
  let p1 := p1.add dir
  let initTile := getUnlimitedCell p1
  let endTile := getUnlimitedCell p2
  let result :=
    if initTile.1 = endTile.1 ∧ 0 ≤ initTile.1 ∧ initTile.1 < (t.x_tiles : ℤ) then
      let lo := min initTile.2 endTile.2
      let hi := max initTile.2 endTile.2
      intRangeFold (fun i acc =>
        checkedInsertTbl t.x_tiles t.y_tiles acc
          (t.getCellByXY initTile.1.toNat i.toNat) ent)
        (max lo 0) (min (hi + 1) (t.y_tiles : ℤ)) t.table
    else
      ddaLoop t.x_tiles t.y_tiles ent dir endTile.1 (F64.fin p1.x) p1.y
        initTile.1 initTile.2 t.table
  result.map fun tb => { t with table := tb }

/-! ### Circles -/

/-- The concrete `Circle { center, radius }` component. -/
structure CircleShape where
  center : Vec2
  radius : ℚ

/-- Modelled from the spec: the `AABB` utility (`utilities::AABB`, not under
`src/`), an axis-aligned box `{x, y, width, height}` used by `insert_circle`
for the standard circle–AABB overlap test (§4.3). -/
structure AABB where
  x : ℚ
  y : ℚ
  width : ℚ
  height : ℚ

/-- Modelled from the spec: `AABB::get_closest_point_to` — the point of the
box closest to `p`, i.e. `p` clamped to the box on both axes. -/
def AABB.getClosestPointTo (b : AABB) (p : Vec2) : Vec2 :=
  ⟨max b.x (min p.x (b.x + b.width)), max b.y (min p.y (b.y + b.height))⟩

/-- Modelled from the spec: `AABB::get_furthest_point_to` — the corner of the
box farthest from `p`: per axis, the end of the interval farther from the
coordinate, i.e. the left end exactly when `p` is at or beyond the
midpoint.  Only the comparison `closest_dist <= furthest_dist` of
`insert_circle` consumes it, and that comparison is insensitive to how ties
between equidistant corners are broken. -/
def AABB.getFurthestPointTo (b : AABB) (p : Vec2) : Vec2 :=
  ⟨if b.x + b.width / 2 ≤ p.x then b.x else b.x + b.width,
   if b.y + b.height / 2 ≤ p.y then b.y else b.y + b.height⟩

/-- `insert_circle` (lines 101–120).  The `i` (column) range is clamped with
`y_tiles` and the `j` (row) range with `x_tiles`, exactly as in the source:
`for j in top.max(0)..(bottom.min(self.x_tiles as i64) + 1)` and
`for i in left.max(0)..(right.min(self.y_tiles as i64) + 1)`.  The two
magnitude comparisons `closest_dist <= actual_radius` and
`closest_dist <= furthest_dist` are rendered through squared distances,
which is equivalent over the reals because both distances are nonnegative
square roots (`sqrt d ≤ r ↔ 0 ≤ r ∧ d ≤ r²`, and `sqrt` is monotone). -/
def SpatialHashTable.insertCircle (t : SpatialHashTable) (ent : Entity)
    (c : CircleShape) (vp : Viewport) : Except Unit SpatialHashTable :=
  let actualCenter := vp.toActualFn c.center
  let actualRadius := vp.scalarToActualFn c.radius
  let lt := getUnlimitedCell ⟨actualCenter.x - actualRadius, actualCenter.y - actualRadius⟩
  let rb := getUnlimitedCell ⟨actualCenter.x + actualRadius, actualCenter.y + actualRadius⟩
  let result :=
    intRangeFold (fun j tbl =>
      intRangeFold (fun i tbl2 =>
        if 0 ≤ i ∧ i < (t.x_tiles : ℤ) ∧ 0 ≤ j ∧ j < (t.y_tiles : ℤ) then
          let cellAABB : AABB := ⟨(i : ℚ) * TILE_SIZE, (j : ℚ) * TILE_SIZE, TILE_SIZE, TILE_SIZE⟩
          let closestSq := ((cellAABB.getClosestPointTo actualCenter).sub actualCenter).magnitudeSq
          let furthestSq := ((cellAABB.getFurthestPointTo actualCenter).sub actualCenter).magnitudeSq
          if (0 ≤ actualRadius ∧ closestSq ≤ actualRadius * actualRadius) ∧
              closestSq ≤ furthestSq then
            checkedInsertTbl t.x_tiles t.y_tiles tbl2
              (t.getCellByXY i.toNat j.toNat) ent
          else .ok tbl2
        else .ok tbl2)
        (max lt.1 0) (min rb.1 (t.y_tiles : ℤ) + 1) tbl)
      (max lt.2 0) (min rb.2 (t.x_tiles : ℤ) + 1) t.table
  result.map fun tb => { t with table := tb }

/-! ### Dependency graph

The `DependencyGraph` resource itself is not under `src/`; only its driver,
`dependency_graph_manager.rs`, is.  The resource is therefore modelled from
the spec (§3 and §4.1): a mapping `Entity → Set<Entity>` of dependents with
`add` (idempotent insertion, creating the entry when absent), `remove`
(deleting the entity's own entry) and `remove_dependent` (removing one
dependent from one entry). -/

/-- Modelled from the spec: the `DependencyGraph` resource, a mapping from an
entity to the set of entities depending on it; `none` means the entity has no
entry (as after `remove`). -/
structure DependencyGraph where
  entries : Entity → Option (Finset Entity)

/-- Modelled from the spec: `add(dependency, dependent)` inserts `dependent`
into `dependency`'s dependent set, creating the entry when absent;
idempotent. -/
def DependencyGraph.add (g : DependencyGraph) (dep ent : Entity) :
    DependencyGraph :=
  ⟨Function.update g.entries dep (some (insert ent ((g.entries dep).getD ∅)))⟩

/-- Modelled from the spec: `remove(entity)` deletes the entity's own
dependent-set entry. -/
def DependencyGraph.remove (g : DependencyGraph) (ent : Entity) :
    DependencyGraph :=
  ⟨Function.update g.entries ent none⟩

/-- Modelled from the spec: `remove_dependent(dependency, dependent)` removes
`dependent` from `dependency`'s set (a no-op when the entry is absent). -/
def DependencyGraph.removeDependent (g : DependencyGraph) (dep ent : Entity) :
    DependencyGraph :=
  match g.entries dep with
  | some s => ⟨Function.update g.entries dep (some (s.erase ent))⟩
  | none => g

/-- `A` is a dependency of `B`: `B` is in `A`'s dependent set. -/
def DependencyGraph.edge (g : DependencyGraph) (a b : Entity) : Prop :=
  b ∈ (g.entries a).getD ∅

/-- `SymbolicPoint` (components::symbolics).  The branch selectors and scalar
parameters are irrelevant to the dependency graph; scalars are `ℚ` and the
selector an opaque `ℕ`. -/
inductive SymbolicPoint where
  | Fixed (v : Vec2)
  | Free (v : Vec2)
  | MidPoint (p1Ent p2Ent : Entity)
  | OnLine (lineEnt : Entity) (t : ℚ)
  | LineLineIntersect (l1Ent l2Ent : Entity)
  | OnCircle (circleEnt : Entity) (theta : ℚ)
  | CircleLineIntersect (circleEnt lineEnt : Entity) (sel : ℕ)
  | CircleCircleIntersect (c1Ent c2Ent : Entity) (sel : ℕ)

/-- `SymbolicLine`. -/
inductive SymbolicLine where
  | Straight (p1Ent p2Ent : Entity)
  | Ray (p1Ent p2Ent : Entity)
  | Segment (p1Ent p2Ent : Entity)
  | Parallel (lineEnt pointEnt : Entity)
  | Perpendicular (lineEnt pointEnt : Entity)

/-- `SymbolicCircle`. -/
inductive SymbolicCircle where
  | CenterRadius (p1Ent p2Ent : Entity)

/-- `Geometry`: the symbolic definition carried by a geometry event (the
source pairs it with a style component that the dependency graph manager
ignores). -/
inductive Geometry where
  | Point (sp : SymbolicPoint)
  | Line (sl : SymbolicLine)
  | Circle (sc : SymbolicCircle)

/-- Modelled from the spec: the inbound change stream (§6) —
`GeometryEvent::Inserted`, `::Removed` and the remaining variants, which the
manager's `run` matches with a wildcard and ignores (`Modified` stands for
them). -/
inductive GeometryEvent where
  | Inserted (ent : Entity) (geom : Geometry)
  | Removed (ent : Entity) (geom : Geometry)
  | Modified (ent : Entity)

/-- The entities named by a symbolic point definition. -/
def SymbolicPoint.refs : SymbolicPoint → Finset Entity
  | .Fixed _ => ∅
  | .Free _ => ∅
  | .MidPoint a b => {a, b}
  | .OnLine l _ => {l}
  | .LineLineIntersect a b => {a, b}
  | .OnCircle c _ => {c}
  | .CircleLineIntersect c l _ => {c, l}
  | .CircleCircleIntersect a b _ => {a, b}

/-- The entities named by a symbolic line definition. -/
def SymbolicLine.refs : SymbolicLine → Finset Entity
  | .Straight a b => {a, b}
  | .Ray a b => {a, b}
  | .Segment a b => {a, b}
  | .Parallel l p => {l, p}
  | .Perpendicular l p => {l, p}

/-- The entities named by a symbolic circle definition. -/
def SymbolicCircle.refs : SymbolicCircle → Finset Entity
  | .CenterRadius a b => {a, b}

/-- The entities named by a symbolic definition. -/
def Geometry.refs : Geometry → Finset Entity
  | .Point sp => sp.refs
  | .Line sl => sl.refs
  | .Circle sc => sc.refs

/-- `insert_point` of dependency_graph_manager.rs (lines 48–71). -/
def dgInsertPoint (ent : Entity) (sp : SymbolicPoint) (g : DependencyGraph) :
    DependencyGraph :=
  match sp with
  | .Fixed _ => g
  | .Free _ => g
  | .MidPoint p1 p2 => (g.add p1 ent).add p2 ent
  | .OnLine l _ => g.add l ent
  | .LineLineIntersect l1 l2 => (g.add l1 ent).add l2 ent
  | .OnCircle c _ => g.add c ent
  | .CircleLineIntersect c l _ => (g.add c ent).add l ent
  | .CircleCircleIntersect c1 c2 _ => (g.add c1 ent).add c2 ent

/-- `insert_line` of dependency_graph_manager.rs (lines 73–96). -/
def dgInsertLine (ent : Entity) (sl : SymbolicLine) (g : DependencyGraph) :
    DependencyGraph :=
  match sl with
  | .Straight p1 p2 => (g.add p1 ent).add p2 ent
  | .Ray p1 p2 => (g.add p1 ent).add p2 ent
  | .Segment p1 p2 => (g.add p1 ent).add p2 ent
  | .Parallel l p => (g.add l ent).add p ent
  | .Perpendicular l p => (g.add l ent).add p ent

/-- `insert_circle` of dependency_graph_manager.rs (lines 98–105). -/
def dgInsertCircle (ent : Entity) (sc : SymbolicCircle) (g : DependencyGraph) :
    DependencyGraph :=
  match sc with
  | .CenterRadius p1 p2 => (g.add p1 ent).add p2 ent

/-- `remove_point` of dependency_graph_manager.rs (lines 107–130). -/
def dgRemovePoint (ent : Entity) (sp : SymbolicPoint) (g : DependencyGraph) :
    DependencyGraph :=
  match sp with
  | .Fixed _ => g
  | .Free _ => g
  | .MidPoint p1 p2 => (g.removeDependent p1 ent).removeDependent p2 ent
  | .OnLine l _ => g.removeDependent l ent
  | .LineLineIntersect l1 l2 => (g.removeDependent l1 ent).removeDependent l2 ent
  | .OnCircle c _ => g.removeDependent c ent
  | .CircleLineIntersect c l _ => (g.removeDependent c ent).removeDependent l ent
  | .CircleCircleIntersect c1 c2 _ => (g.removeDependent c1 ent).removeDependent c2 ent

/-- `remove_line` of dependency_graph_manager.rs (lines 132–155). -/
def dgRemoveLine (ent : Entity) (sl : SymbolicLine) (g : DependencyGraph) :
    DependencyGraph :=
  match sl with
  | .Straight p1 p2 => (g.removeDependent p1 ent).removeDependent p2 ent
  | .Ray p1 p2 => (g.removeDependent p1 ent).removeDependent p2 ent
  | .Segment p1 p2 => (g.removeDependent p1 ent).removeDependent p2 ent
  | .Parallel l p => (g.removeDependent l ent).removeDependent p ent
  | .Perpendicular l p => (g.removeDependent l ent).removeDependent p ent

/-- `remove_circle` of dependency_graph_manager.rs (lines 157–164). -/
def dgRemoveCircle (ent : Entity) (sc : SymbolicCircle) (g : DependencyGraph) :
    DependencyGraph :=
  match sc with
  | .CenterRadius p1 p2 => (g.removeDependent p1 ent).removeDependent p2 ent

/-- The event dispatch of `DependencyGraphManager::run` (lines 24–45) for one
event: `Inserted` dispatches to the insert helpers, `Removed` first calls
`dependency_graph.remove(ent)` and then dispatches to the remove helpers, and
every other event is ignored. -/
def processGeometryEvent (g : DependencyGraph) (ev : GeometryEvent) :
    DependencyGraph :=
  match ev with
  | .Inserted ent geom =>
      match geom with
      | .Point sp => dgInsertPoint ent sp g
      | .Line sl => dgInsertLine ent sl g
      | .Circle sc => dgInsertCircle ent sc g
  | .Removed ent geom =>
      let g1 := g.remove ent
      match geom with
      | .Point sp => dgRemovePoint ent sp g1
      | .Line sl => dgRemoveLine ent sl g1
      | .Circle sc => dgRemoveCircle ent sc g1
  | .Modified _ => g

/-! ### Concrete instances used by counterexamples and witnesses -/

/-- An 80×80-pixel viewport with the identity virtual→actual transform. -/
def vp80 : Viewport := ⟨fun v => v, fun s => s, 80, 80⟩

/-- The 2×2 grid over `vp80`. -/
def t80 : SpatialHashTable := SpatialHashTable.default.initViewport vp80

/-- A 160×40-pixel viewport with the identity virtual→actual transform. -/
def vp160 : Viewport := ⟨fun v => v, fun s => s, 160, 40⟩

/-- The 4×1 (non-square) grid over `vp160`. -/
def t160 : SpatialHashTable := SpatialHashTable.default.initViewport vp160

/-- Whether a fallible insertion succeeded with `e` present in cell `idx`. -/
def resultContains (r : Except Unit SpatialHashTable) (idx : ℕ) (e : Entity) :
    Bool :=
  match r with
  | .ok t => decide (e ∈ t.table idx)
  | .error _ => false

/-- Whether a fallible insertion panicked (failed its assertion or indexed
out of bounds). -/
def resultIsError (r : Except Unit SpatialHashTable) : Bool :=
  match r with
  | .error _ => true
  | .ok _ => false

/-! ### Unfolding lemmas for the loops -/

/-- `intRangeFold` on an empty range. -/
theorem intRangeFold_neg {α} (f : ℤ → α → Except Unit α) (lo hi : ℤ) (a : α)
    (h : ¬ lo < hi) : intRangeFold f lo hi a = .ok a := by
  rw [intRangeFold.eq_def]
  simp [h]

/-- `intRangeFold` on a nonempty range runs its first element. -/
theorem intRangeFold_pos {α} (f : ℤ → α → Except Unit α) (lo hi : ℤ) (a : α)
    (h : lo < hi) : intRangeFold f lo hi a =
      (match f lo a with
       | .error e => .error e
       | .ok b => intRangeFold f (lo + 1) hi b) := by
  rw [intRangeFold.eq_def]
  simp [h]

/-- `ddaLoop` once its guard fails. -/
theorem ddaLoop_stop (xT yT : ℕ) (ent : Entity) (dir : Vec2) (endXTile : ℤ)
    (currX : F64) (currY : ℚ) (currXTile currYTile : ℤ)
    (tbl : ℕ → Finset Entity)
    (h : ¬ (currXTile ≤ endXTile ∧ 0 ≤ currYTile ∧ currYTile < (yT : ℤ))) :
    ddaLoop xT yT ent dir endXTile currX currY currXTile currYTile tbl =
      .ok tbl := by
  rw [ddaLoop.eq_def]
  simp [h]

/-- One iteration of `ddaLoop` while its guard holds. -/
theorem ddaLoop_step (xT yT : ℕ) (ent : Entity) (dir : Vec2) (endXTile : ℤ)
    (currX : F64) (currY : ℚ) (currXTile currYTile : ℤ)
    (tbl : ℕ → Finset Entity)
    (h : currXTile ≤ endXTile ∧ 0 ≤ currYTile ∧ currYTile < (yT : ℤ)) :
    ddaLoop xT yT ent dir endXTile currX currY currXTile currYTile tbl =
      (let yiI : ℤ := if dir.y < 0 then -1 else 1
       let nextY : ℚ := ((currYTile + (if 0 < dir.y then 1 else 0) : ℤ) : ℚ) * TILE_SIZE
       let tileOffsetY : ℚ := (nextY - currY) * (yiI : ℚ)
       let nextXDiff : F64 := ((F64.fin tileOffsetY).divQ |dir.y|).mulQ dir.x
       let nextX : F64 := currX.add nextXDiff
       let nextXTile : ℤ := (nextX.divQ TILE_SIZE).toI64
       match ddaRow xT yT ent endXTile currYTile currXTile (nextXTile + 1) tbl with
       | .error e => .error e
       | .ok tbl2 =>
           ddaLoop xT yT ent dir endXTile nextX nextY nextXTile
             (currYTile + yiI) tbl2) := by
  rw [ddaLoop.eq_def]
  simp [h]

/-! ### Dependency-graph lemmas -/

/-- Effect of `add` on the edge relation: exactly the one requested edge
appears. -/
theorem edge_add (g : DependencyGraph) (d e a b : Entity) :
    (g.add d e).edge a b ↔ g.edge a b ∨ (a = d ∧ b = e) := by
  unfold DependencyGraph.add DependencyGraph.edge
  by_cases h : a = d
  · subst h
    simp [Function.update_same, Finset.mem_insert]
    tauto
  · simp [Function.update_noteq h, h]

/-- Pointwise effect of `remove_dependent` on the entry map. -/
theorem removeDependent_entries (g : DependencyGraph) (d e a : Entity) :
    (g.removeDependent d e).entries a =
      if a = d then (g.entries d).map (fun s => s.erase e) else g.entries a := by
  rcases h : g.entries d with _ | s <;>
    by_cases had : a = d <;>
      simp [DependencyGraph.removeDependent, h, had,
        Function.update_same, Function.update_noteq]

/-- Pointwise effect of `remove` on the entry map. -/
theorem remove_entries (g : DependencyGraph) (e a : Entity) :
    (g.remove e).entries a = if a = e then none else g.entries a := by
  by_cases h : a = e <;>
    simp [DependencyGraph.remove, h, Function.update_same, Function.update_noteq]

/-- Erasing the same element twice equals erasing it once, lifted to
optional sets. -/
theorem option_map_erase_comp (o : Option (Finset Entity)) (e : Entity) :
    Option.map ((fun s => Finset.erase s e) ∘ fun s => Finset.erase s e) o =
      Option.map (fun s => Finset.erase s e) o := by
  cases o <;> simp [Finset.erase_idem]

/-- Entry map after `remove(ent)` followed by `remove_dependent(r1, ent)` and
`remove_dependent(r2, ent)` — the `Removed` handling for a two-reference
definition. -/
theorem removedTwo_entries (g : DependencyGraph) (ent r1 r2 a : Entity) :
    (((g.remove ent).removeDependent r1 ent).removeDependent r2 ent).entries a =
      if a = ent then none
      else if a = r1 ∨ a = r2 then (g.entries a).map (fun s => s.erase ent)
      else g.entries a := by
  simp only [removeDependent_entries, remove_entries]
  split_ifs <;>
    simp_all [Option.map_map, option_map_erase_comp]

/-- Entry map after `remove(ent)` followed by a single
`remove_dependent(r, ent)`. -/
theorem removedOne_entries (g : DependencyGraph) (ent r a : Entity) :
    ((g.remove ent).removeDependent r ent).entries a =
      if a = ent then none
      else if a = r then (g.entries a).map (fun s => s.erase ent)
      else g.entries a := by
  simp only [removeDependent_entries, remove_entries]
  split_ifs <;> simp_all

/-- C3: after the manager processes `GeometryEvent::Inserted(ent, geom)`, the
edge relation gains exactly the edges `(dep → ent)` for the entities `dep`
named by `geom`'s symbolic definition — both endpoints for
`MidPoint`/`LineLineIntersect`/`CircleCircleIntersect`/`Straight`/`Ray`/
`Segment`/`CenterRadius`, the circle-or-line and line/point references for
`CircleLineIntersect`/`Parallel`/`Perpendicular`, the single reference for
`OnLine`/`OnCircle`, and nothing for `Fixed`/`Free` — and no other edge is
added. -/
theorem dependency_insert_mirrors_refs (g : DependencyGraph) (ent : Entity)
    (geom : Geometry) (a b : Entity) :
    (processGeometryEvent g (.Inserted ent geom)).edge a b ↔
      g.edge a b ∨ (b = ent ∧ a ∈ geom.refs) := by
  cases geom with
  | Point sp =>
      cases sp <;>
        simp [processGeometryEvent, dgInsertPoint, edge_add, Geometry.refs,
          SymbolicPoint.refs, Finset.mem_insert, Finset.mem_singleton] <;> tauto
  | Line sl =>
      cases sl <;>
        simp [processGeometryEvent, dgInsertLine, edge_add, Geometry.refs,
          SymbolicLine.refs, Finset.mem_insert, Finset.mem_singleton] <;> tauto
  | Circle sc =>
      cases sc <;>
        simp [processGeometryEvent, dgInsertCircle, edge_add, Geometry.refs,
          SymbolicCircle.refs, Finset.mem_insert, Finset.mem_singleton] <;> tauto

/-- Pointwise description of the entry map after processing
`GeometryEvent::Removed(ent, geom)`. -/
theorem processRemoved_entries (g : DependencyGraph) (ent : Entity)
    (geom : Geometry) (a : Entity) :
    (processGeometryEvent g (.Removed ent geom)).entries a =
      if a = ent then none
      else if a ∈ geom.refs then (g.entries a).map (fun s => s.erase ent)
      else g.entries a := by
  cases geom with
  | Point sp =>
      cases sp <;>
        simp only [processGeometryEvent, dgRemovePoint, removedTwo_entries,
          removedOne_entries, remove_entries, Geometry.refs, SymbolicPoint.refs,
          Finset.mem_insert, Finset.mem_singleton, Finset.not_mem_empty] <;>
        split_ifs <;> simp_all
  | Line sl =>
      cases sl <;>
        simp only [processGeometryEvent, dgRemoveLine, removedTwo_entries,
          remove_entries, Geometry.refs, SymbolicLine.refs,
          Finset.mem_insert, Finset.mem_singleton] <;>
        split_ifs <;> simp_all
  | Circle sc =>
      cases sc <;>
        simp only [processGeometryEvent, dgRemoveCircle, removedTwo_entries,
          remove_entries, Geometry.refs, SymbolicCircle.refs,
          Finset.mem_insert, Finset.mem_singleton] <;>
        split_ifs <;> simp_all

/-- C4: processing `GeometryEvent::Removed(ent, geom)` deletes `ent`'s own
dependent-set entry (`remove`), erases `ent` from the dependent set of every
entity named by `geom`'s symbolic definition (one effective
`remove_dependent` per named entity, mirroring the edges added at
insertion), and leaves the entry of every other entity unchanged. -/
theorem dependency_remove_frame (g : DependencyGraph) (ent : Entity)
    (geom : Geometry) :
    (processGeometryEvent g (.Removed ent geom)).entries ent = none ∧
    (∀ a, a ≠ ent → a ∈ geom.refs →
      (processGeometryEvent g (.Removed ent geom)).entries a =
        (g.entries a).map (fun s => s.erase ent)) ∧
    (∀ a, a ≠ ent → a ∉ geom.refs →
      (processGeometryEvent g (.Removed ent geom)).entries a = g.entries a) := by
  refine ⟨?_, fun a ha hr => ?_, fun a ha hr => ?_⟩ <;>
    rw [processRemoved_entries] <;> simp [*]

/-- Witness for C4 at a concrete input: removing entity `5`, a midpoint of
entities `3` and `4`, erases `5` from `3`'s dependent set. -/
theorem dependency_remove_frame_witness :
    (processGeometryEvent ⟨fun _ => some {5, 9}⟩
        (.Removed 5 (.Point (.MidPoint 3 4)))).entries 3 =
      (some ({5, 9} : Finset Entity)).map (fun s => s.erase 5) :=
  (dependency_remove_frame ⟨fun _ => some {5, 9}⟩ 5 (.Point (.MidPoint 3 4))).2.1
    3 (by decide) (by decide)

/-! ### Spatial table helper lemmas -/

/-- `insert_point` does not change the grid dimensions, so `get_cell` is
unaffected. -/
theorem insertPoint_getCell (t : SpatialHashTable) (ent : Entity) (p q : Vec2)
    (vp : Viewport) : (t.insertPoint ent p vp).getCell q = t.getCell q := by
  unfold SpatialHashTable.insertPoint
  cases hh : t.getCell (vp.toActualFn p) <;> rfl

/-- `insert_point` does not change the grid dimensions, so the neighbor-tile
list is unaffected. -/
theorem insertPoint_neighborTiles (t : SpatialHashTable) (ent : Entity)
    (p : Vec2) (vp : Viewport) (c : ℕ) :
    (t.insertPoint ent p vp).neighborTiles c = t.neighborTiles c := by
  unfold SpatialHashTable.insertPoint
  cases hh : t.getCell (vp.toActualFn p) <;> rfl

/-- After an in-bounds `insert_point`, the covering tile's set has gained the
entity. -/
theorem insertPoint_table_center (t : SpatialHashTable) (ent : Entity)
    (p : Vec2) (vp : Viewport) (c : ℕ)
    (h : t.getCell (vp.toActualFn p) = some c) :
    (t.insertPoint ent p vp).table c = insert ent (t.table c) := by
  simp only [SpatialHashTable.insertPoint, h]
  exact Function.update_same _ _ _

/-- `remove_from_all` does not change the grid dimensions, so `get_cell` is
unaffected. -/
theorem removeFromAll_getCell (t : SpatialHashTable) (ent : Entity)
    (q : Vec2) : (t.removeFromAll ent).getCell q = t.getCell q := rfl

/-- Membership in the flattened, deduplicated entity list collected from a
list of tiles. -/
theorem mem_collectEntities (L : List ℕ) (tbl : ℕ → Finset Entity)
    (e : Entity) :
    (e ∈ (L.map fun tile => (tbl tile).sort (· ≤ ·)).flatten.dedup) ↔
      ∃ tile ∈ L, e ∈ tbl tile := by
  simp only [List.mem_dedup, List.mem_flatten, List.mem_map, Finset.mem_sort]
  constructor
  · rintro ⟨l, ⟨tile, htile, rfl⟩, he⟩
    exact ⟨tile, htile, (Finset.mem_sort _).1 he⟩
  · rintro ⟨tile, htile, he⟩
    exact ⟨(tbl tile).sort (· ≤ ·), ⟨tile, htile, rfl⟩, (Finset.mem_sort _).2 he⟩

/-- C1: for every point whose actual-space image lies in an in-bounds tile,
inserting an entity at the point and then querying
`get_neighbor_entities_of_point` at the same point returns `Some` list
containing the entity; after `remove_from_all` the same query returns `Some`
list without it. -/
theorem spatial_round_trip (t : SpatialHashTable) (e : Entity) (p : Vec2)
    (vp : Viewport) (c : ℕ) (h : t.getCell (vp.toActualFn p) = some c) :
    (∃ l, (t.insertPoint e p vp).getNeighborEntitiesOfPoint p vp = some l ∧
      e ∈ l) ∧
    (∃ l, ((t.insertPoint e p vp).removeFromAll e).getNeighborEntitiesOfPoint
        p vp = some l ∧ e ∉ l) := by
  constructor
  · refine ⟨(((t.insertPoint e p vp).neighborTiles c).map fun tile =>
      ((t.insertPoint e p vp).table tile).sort (· ≤ ·)).flatten.dedup, ?_, ?_⟩
    · simp only [SpatialHashTable.getNeighborEntitiesOfPoint,
        insertPoint_getCell, h]
    · rw [mem_collectEntities]
      refine ⟨c, ?_, ?_⟩
      · simp [SpatialHashTable.neighborTiles]
      · rw [insertPoint_table_center t e p vp c h]
        exact Finset.mem_insert_self _ _
  · refine ⟨((((t.insertPoint e p vp).removeFromAll e).neighborTiles c).map
        fun tile => (((t.insertPoint e p vp).removeFromAll e).table
          tile).sort (· ≤ ·)).flatten.dedup, ?_, ?_⟩
    · simp only [SpatialHashTable.getNeighborEntitiesOfPoint,
        removeFromAll_getCell, insertPoint_getCell, h]
    · rw [mem_collectEntities]
      rintro ⟨tile, _, hmem⟩
      simp only [SpatialHashTable.removeFromAll] at hmem
      exact Finset.not_mem_erase e _ hmem

/-- Witness for C1: entity `7` inserted at `(10,10)` on the 2×2 grid is
returned by the neighbor query and gone after `remove_from_all`. -/
theorem spatial_round_trip_witness :
    (∃ l, (t80.insertPoint 7 ⟨10, 10⟩ vp80).getNeighborEntitiesOfPoint
        ⟨10, 10⟩ vp80 = some l ∧ 7 ∈ l) ∧
    (∃ l, ((t80.insertPoint 7 ⟨10, 10⟩ vp80).removeFromAll
        7).getNeighborEntitiesOfPoint ⟨10, 10⟩ vp80 = some l ∧ 7 ∉ l) :=
  spatial_round_trip t80 7 ⟨10, 10⟩ vp80 0 (by
    norm_num [t80, vp80, SpatialHashTable.default,
      SpatialHashTable.initViewport, SpatialHashTable.getCell,
      SpatialHashTable.getCellByXY, TILE_SIZE, Int.toNat])

/-- Membership in a conditional singleton list. -/
theorem mem_ite_list {P : Prop} [Decidable P] (v tile : ℕ) :
    (tile ∈ if P then [v] else []) ↔ P ∧ tile = v := by
  split_ifs with hp <;> simp [hp]

/-- `get_cell` succeeds exactly on in-bounds floor coordinates, returning the
flat index of the covering tile. -/
theorem getCell_some_iff (t : SpatialHashTable) (q : Vec2) (c : ℕ) :
    t.getCell q = some c ↔
      ((0 ≤ ⌊q.x / TILE_SIZE⌋ ∧ ⌊q.x / TILE_SIZE⌋ < (t.x_tiles : ℤ) ∧
        0 ≤ ⌊q.y / TILE_SIZE⌋ ∧ ⌊q.y / TILE_SIZE⌋ < (t.y_tiles : ℤ)) ∧
       c = ⌊q.y / TILE_SIZE⌋.toNat * t.x_tiles + ⌊q.x / TILE_SIZE⌋.toNat) := by
  simp only [SpatialHashTable.getCell, SpatialHashTable.getCellByXY]
  split_ifs with hcond <;> simp [hcond, eq_comm]

/-- `get_cell` fails exactly on out-of-bounds floor coordinates. -/
theorem getCell_none_iff (t : SpatialHashTable) (q : Vec2) :
    t.getCell q = none ↔
      ¬ (0 ≤ ⌊q.x / TILE_SIZE⌋ ∧ ⌊q.x / TILE_SIZE⌋ < (t.x_tiles : ℤ) ∧
         0 ≤ ⌊q.y / TILE_SIZE⌋ ∧ ⌊q.y / TILE_SIZE⌋ < (t.y_tiles : ℤ)) := by
  simp only [SpatialHashTable.getCell]
  split_ifs with hcond <;> simp [hcond]

set_option maxHeartbeats 1600000 in
/-- The tiles pushed by `get_neighbor_entities_of_point` around center tile
`cy * x_tiles + cx` are exactly the in-bounds tiles of the 3×3 neighborhood
of `(cx, cy)`. -/
theorem mem_neighborTiles (t : SpatialHashTable) (cx cy tile : ℕ)
    (hx : cx < t.x_tiles) (hy : cy < t.y_tiles) :
    tile ∈ t.neighborTiles (cy * t.x_tiles + cx) ↔
      ∃ i j : ℕ, i < t.x_tiles ∧ j < t.y_tiles ∧
        ((i : ℤ) - (cx : ℤ)).natAbs ≤ 1 ∧ ((j : ℤ) - (cy : ℤ)).natAbs ≤ 1 ∧
        tile = j * t.x_tiles + i := by
  obtain ⟨x, y, tbl⟩ := t
  simp only at hx hy ⊢
  have hx0 : 0 < x := lt_of_le_of_lt (Nat.zero_le cx) hx
  have hmod : (cy * x + cx) % x = cx := by
    rw [Nat.mul_comm cy x, Nat.mul_add_mod]
    exact Nat.mod_eq_of_lt hx
  have hdiv : (cy * x + cx) / x = cy := by
    rw [Nat.mul_comm cy x, Nat.mul_add_div hx0, Nat.div_eq_of_lt hx,
      Nat.add_zero]
  have e1 : (cy - 1) * x = cy * x - x := by
    cases cy with
    | zero => simp
    | succ n => simp [Nat.succ_sub_one, Nat.succ_mul]
  have e2 : (cy + 1) * x = cy * x + x := by ring
  have e3 : cy = 0 ∨ x ≤ cy * x := by
    rcases Nat.eq_zero_or_pos cy with h0 | h0
    · exact Or.inl h0
    · exact Or.inr (Nat.le_mul_of_pos_left x h0)
  have hshape : tile ∈ SpatialHashTable.neighborTiles ⟨x, y, tbl⟩
      (cy * x + cx) ↔
      (tile = cy * x + cx ∨
       ((¬ cx = 0) ∧ tile = cy * x + cx - 1) ∨
       ((¬ cx = x - 1) ∧ tile = cy * x + cx + 1) ∨
       ((¬ cy < 1) ∧ tile = cy * x + cx - x) ∨
       ((¬ cy ≥ y - 1) ∧ tile = cy * x + cx + x) ∨
       (((¬ cx = 0) ∧ ¬ cy < 1) ∧ tile = cy * x + cx - x - 1) ∨
       (((¬ cx = 0) ∧ ¬ cy ≥ y - 1) ∧ tile = cy * x + cx + x - 1) ∨
       (((¬ cx = x - 1) ∧ ¬ cy < 1) ∧ tile = cy * x + cx - x + 1) ∨
       (((¬ cx = x - 1) ∧ ¬ cy ≥ y - 1) ∧ tile = cy * x + cx + x + 1)) := by
    simp only [SpatialHashTable.neighborTiles, SpatialHashTable.isLeftBorder,
      SpatialHashTable.isRightBorder, SpatialHashTable.isTopBorder,
      SpatialHashTable.isBottomBorder, hmod, hdiv, List.mem_append,
      List.mem_singleton, mem_ite_list, or_assoc]
  rw [hshape]
  clear hshape
  constructor
  · rintro (rfl | ⟨h1, rfl⟩ | ⟨h1, rfl⟩ | ⟨h1, rfl⟩ | ⟨h1, rfl⟩ |
      ⟨⟨h1, h2⟩, rfl⟩ | ⟨⟨h1, h2⟩, rfl⟩ | ⟨⟨h1, h2⟩, rfl⟩ | ⟨⟨h1, h2⟩, rfl⟩)
    · exact ⟨cx, cy, hx, hy, by omega, by omega, by omega⟩
    · exact ⟨cx - 1, cy, by omega, hy, by omega, by omega, by omega⟩
    · exact ⟨cx + 1, cy, by omega, hy, by omega, by omega, by omega⟩
    · exact ⟨cx, cy - 1, hx, by omega, by omega, by omega, by omega⟩
    · exact ⟨cx, cy + 1, hx, by omega, by omega, by omega, by omega⟩
    · exact ⟨cx - 1, cy - 1, by omega, by omega, by omega, by omega, by omega⟩
    · exact ⟨cx - 1, cy + 1, by omega, by omega, by omega, by omega, by omega⟩
    · exact ⟨cx + 1, cy - 1, by omega, by omega, by omega, by omega, by omega⟩
    · exact ⟨cx + 1, cy + 1, by omega, by omega, by omega, by omega, by omega⟩
  · rintro ⟨i, j, hi, hj, hai, haj, rfl⟩
    have hb1 : (cy + 1) * x = cy * x + x := by ring
    have hic : i = cx ∨ i + 1 = cx ∨ i = cx + 1 := by omega
    have hjc : j = cy ∨ j + 1 = cy ∨ j = cy + 1 := by omega
    rcases hic with rfl | hi1 | rfl <;> rcases hjc with rfl | hj1 | rfl
    · exact Or.inl rfl
    · have hb3 : cy * x = j * x + x := by rw [← hj1]; ring
      exact Or.inr (Or.inr (Or.inr (Or.inl ⟨by omega, by omega⟩)))
    · exact Or.inr (Or.inr (Or.inr (Or.inr (Or.inl ⟨by omega, by omega⟩))))
    · exact Or.inr (Or.inl ⟨by omega, by omega⟩)
    · have hb3 : cy * x = j * x + x := by rw [← hj1]; ring
      exact Or.inr (Or.inr (Or.inr (Or.inr (Or.inr (Or.inl
        ⟨⟨by omega, by omega⟩, by omega⟩)))))
    · exact Or.inr (Or.inr (Or.inr (Or.inr (Or.inr (Or.inr (Or.inl
        ⟨⟨by omega, by omega⟩, by omega⟩))))))
    · exact Or.inr (Or.inr (Or.inl ⟨by omega, by omega⟩))
    · have hb3 : cy * x = j * x + x := by rw [← hj1]; ring
      exact Or.inr (Or.inr (Or.inr (Or.inr (Or.inr (Or.inr (Or.inr (Or.inl
        ⟨⟨by omega, by omega⟩, by omega⟩)))))))
    · exact Or.inr (Or.inr (Or.inr (Or.inr (Or.inr (Or.inr (Or.inr (Or.inr
        ⟨⟨by omega, by omega⟩, by omega⟩)))))))

/-- C6: `get_neighbor_entities_of_point` returns `None` exactly when the
point's actual-space image maps outside the grid; otherwise it returns a
duplicate-free list whose members are exactly the union of the entity sets
of the point's tile and its up-to-8 in-bounds neighbors (the 3×3
neighborhood clipped at the grid borders). -/
theorem get_neighbor_spec (t : SpatialHashTable) (p : Vec2) (vp : Viewport) :
    (t.getNeighborEntitiesOfPoint p vp = none ↔
      ¬ (0 ≤ ⌊(vp.toActualFn p).x / TILE_SIZE⌋ ∧
         ⌊(vp.toActualFn p).x / TILE_SIZE⌋ < (t.x_tiles : ℤ) ∧
         0 ≤ ⌊(vp.toActualFn p).y / TILE_SIZE⌋ ∧
         ⌊(vp.toActualFn p).y / TILE_SIZE⌋ < (t.y_tiles : ℤ))) ∧
    (∀ l, t.getNeighborEntitiesOfPoint p vp = some l →
      l.Nodup ∧
      ∀ e, e ∈ l ↔ ∃ i j : ℕ, i < t.x_tiles ∧ j < t.y_tiles ∧
        ((i : ℤ) - (⌊(vp.toActualFn p).x / TILE_SIZE⌋.toNat : ℤ)).natAbs ≤ 1 ∧
        ((j : ℤ) - (⌊(vp.toActualFn p).y / TILE_SIZE⌋.toNat : ℤ)).natAbs ≤ 1 ∧
        e ∈ t.table (j * t.x_tiles + i)) := by
  constructor
  · rcases hg : t.getCell (vp.toActualFn p) with _ | c
    · have hg2 := (getCell_none_iff t (vp.toActualFn p)).1 hg
      simp [SpatialHashTable.getNeighborEntitiesOfPoint, hg, hg2]
    · have hc := (getCell_some_iff t (vp.toActualFn p) c).1 hg
      simp [SpatialHashTable.getNeighborEntitiesOfPoint, hg, hc.1]
  · intro l hl
    rcases hg : t.getCell (vp.toActualFn p) with _ | c
    · simp [SpatialHashTable.getNeighborEntitiesOfPoint, hg] at hl
    · obtain ⟨⟨hx0, hxlt, hy0, hylt⟩, hceq⟩ :=
        (getCell_some_iff t (vp.toActualFn p) c).1 hg
      simp only [SpatialHashTable.getNeighborEntitiesOfPoint, hg,
        Option.some.injEq] at hl
      subst hl
      subst hceq
      have hcx : ⌊(vp.toActualFn p).x / TILE_SIZE⌋.toNat < t.x_tiles := by
        omega
      have hcy : ⌊(vp.toActualFn p).y / TILE_SIZE⌋.toNat < t.y_tiles := by
        omega
      refine ⟨List.nodup_dedup _, fun e => ?_⟩
      rw [mem_collectEntities]
      constructor
      · rintro ⟨tile, htile, he⟩
        rw [mem_neighborTiles t _ _ tile hcx hcy] at htile
        obtain ⟨i, j, hi, hj, hai, haj, rfl⟩ := htile
        exact ⟨i, j, hi, hj, hai, haj, he⟩
      · rintro ⟨i, j, hi, hj, hai, haj, he⟩
        exact ⟨j * t.x_tiles + i,
          (mem_neighborTiles t _ _ _ hcx hcy).2 ⟨i, j, hi, hj, hai, haj, rfl⟩,
          he⟩

/-- Witness for C6: after inserting entity `7` at `(10,10)` on the 2×2 grid,
the neighbor query at `(10,10)` returns exactly `[7]`, and the theorem's
characterization holds for that list. -/
theorem get_neighbor_spec_witness :
    ([7] : List Entity).Nodup ∧
    ∀ e, e ∈ ([7] : List Entity) ↔ ∃ i j : ℕ,
      i < (t80.insertPoint 7 ⟨10, 10⟩ vp80).x_tiles ∧
      j < (t80.insertPoint 7 ⟨10, 10⟩ vp80).y_tiles ∧
      ((i : ℤ) -
        (⌊(vp80.toActualFn ⟨10, 10⟩).x / TILE_SIZE⌋.toNat : ℤ)).natAbs ≤ 1 ∧
      ((j : ℤ) -
        (⌊(vp80.toActualFn ⟨10, 10⟩).y / TILE_SIZE⌋.toNat : ℤ)).natAbs ≤ 1 ∧
      e ∈ (t80.insertPoint 7 ⟨10, 10⟩ vp80).table
        (j * (t80.insertPoint 7 ⟨10, 10⟩ vp80).x_tiles + i) :=
  (get_neighbor_spec (t80.insertPoint 7 ⟨10, 10⟩ vp80) ⟨10, 10⟩ vp80).2 [7] (by
    norm_num [SpatialHashTable.getNeighborEntitiesOfPoint,
      SpatialHashTable.insertPoint, SpatialHashTable.getCell,
      SpatialHashTable.getCellByXY, SpatialHashTable.neighborTiles,
      SpatialHashTable.isLeftBorder, SpatialHashTable.isRightBorder,
      SpatialHashTable.isTopBorder, SpatialHashTable.isBottomBorder,
      t80, vp80, SpatialHashTable.default, SpatialHashTable.initViewport,
      TILE_SIZE, Int.toNat, Function.update, Finset.sort_singleton,
      Finset.sort_empty, List.dedup_cons_of_not_mem, List.dedup_nil])

/-- C7: `insert_point` adds the entity to exactly the single covering tile
when the actual-space image of the point is in bounds, and is a no-op
otherwise. -/
theorem insert_point_exact_tile (t : SpatialHashTable) (ent : Entity)
    (p : Vec2) (vp : Viewport) :
    (∀ c, t.getCell (vp.toActualFn p) = some c →
      (t.insertPoint ent p vp).table c = insert ent (t.table c) ∧
      (∀ j, j ≠ c → (t.insertPoint ent p vp).table j = t.table j) ∧
      (t.insertPoint ent p vp).x_tiles = t.x_tiles ∧
      (t.insertPoint ent p vp).y_tiles = t.y_tiles) ∧
    (t.getCell (vp.toActualFn p) = none → t.insertPoint ent p vp = t) := by
  constructor
  · intro c hc
    simp only [SpatialHashTable.insertPoint, hc]
    refine ⟨Function.update_same _ _ _,
      fun j hj => Function.update_noteq hj _ _, ?_, ?_⟩ <;> trivial
  · intro hc
    simp [SpatialHashTable.insertPoint, hc]

/-- Witness for C7 at a concrete in-bounds input: point `(10,10)` on the 2×2
grid covers tile `0` and only tile `0`. -/
theorem insert_point_exact_tile_witness :
    (t80.insertPoint 7 ⟨10, 10⟩ vp80).table 0 = insert 7 (t80.table 0) ∧
    (t80.insertPoint 7 ⟨10, 10⟩ vp80).table 3 = t80.table 3 := by
  have h := (insert_point_exact_tile t80 7 ⟨10, 10⟩ vp80).1 0 (by
    norm_num [t80, vp80, SpatialHashTable.default, SpatialHashTable.initViewport,
      SpatialHashTable.getCell, SpatialHashTable.getCellByXY, TILE_SIZE, Int.toNat])
  exact ⟨h.1, h.2.1 3 (by decide)⟩

/-- C8: `init_viewport` sets the grid to `⌈actual_width / 40⌉ ×
⌈actual_height / 40⌉` tiles (tile edge length fixed at `TILE_SIZE = 40`) and
leaves every tile's entity set empty, discarding whatever the previous table
held. -/
theorem init_viewport_resets (t : SpatialHashTable) (vp : Viewport) :
    (t.initViewport vp).x_tiles = (⌈vp.actualWidth / 40⌉ : ℤ).toNat ∧
    (t.initViewport vp).y_tiles = (⌈vp.actualHeight / 40⌉ : ℤ).toNat ∧
    TILE_SIZE = 40 ∧
    ∀ i, (t.initViewport vp).table i = ∅ :=
  ⟨rfl, rfl, rfl, fun _ => rfl⟩

/-- C10: `Vector2::normalized` divides by the magnitude with no zero guard
(see `Vec2.normalizedWith`, whose body is the bare division `self /
self.magnitude()`).  For every vector of nonzero magnitude the result is a
unit vector; for the zero vector no magnitude value can make the result a
unit vector, so the division by zero is a precondition violation. -/
theorem normalized_unit_vector :
    (∀ (v : Vec2) (m : ℚ), m * m = v.magnitudeSq → 0 < m →
      (v.normalizedWith m).magnitudeSq = 1) ∧
    (∀ m : ℚ, ((Vec2.mk 0 0).normalizedWith m).magnitudeSq ≠ 1) := by
  constructor
  · intro v m hm hpos
    have hne : m ≠ 0 := ne_of_gt hpos
    simp only [Vec2.normalizedWith, Vec2.divScalar, Vec2.magnitudeSq] at *
    field_simp
    linarith
  · intro m
    simp [Vec2.normalizedWith, Vec2.divScalar, Vec2.magnitudeSq]

/-- Witness for C10: the vector `(3,4)` has magnitude `5`, and normalizing
yields a unit vector. -/
theorem normalized_unit_vector_witness :
    ((Vec2.mk 3 4).normalizedWith 5).magnitudeSq = 1 :=
  normalized_unit_vector.1 ⟨3, 4⟩ 5 (by norm_num [Vec2.magnitudeSq]) (by norm_num)

/-- C9 fails on the code: the clipped segment from `(10,20)` to `(50,20)` —
exactly horizontal, magnitude `40`, spanning two tiles of the 2×2 grid — makes
the DDA of `insert_line` divide by `dir.y.abs() = 0`.  The first row step
yields `next_x = -inf` and `next_x_tile = i64::MIN`; the second row's column
loop then starts at `tile_x = i64::MIN`, which passes the
`tile_x < x_tiles` guard (it is negative), is cast to `usize` as `2^63`, and
produces the tile index `2^63 + 2 ≥ x_tiles * y_tiles`, so the assertion
fires (out-of-bounds tile index, modelled as `Except.error`). -/
theorem insert_line_assert_fires :
    resultIsError (t80.insertLineClipped 0 ⟨10, 20⟩ ⟨50, 20⟩ 40) = true := by
  have e1 : t80.insertLineClipped 0 ⟨10, 20⟩ ⟨50, 20⟩ 40
      = (ddaLoop 2 2 0 ⟨1/1000000, 0⟩ 1 (F64.fin (10 + 1/1000000)) 20 0 0
          (fun _ => ∅)).map (fun tb => { t80 with table := tb }) := by
    norm_num [SpatialHashTable.insertLineClipped, t80, vp80,
      SpatialHashTable.default, SpatialHashTable.initViewport, Vec2.sub,
      Vec2.add, Vec2.divScalar, Vec2.mulScalar, getUnlimitedCell, TILE_SIZE,
      Int.toNat]
  have e2 : ddaLoop 2 2 0 ⟨1/1000000, 0⟩ 1 (F64.fin (10 + 1/1000000)) 20 0 0
      (fun _ : ℕ => (∅ : Finset Entity)) = .error () := by
    rw [ddaLoop_step _ _ _ _ _ _ _ _ _ _ (by norm_num)]
    norm_num [F64.divQ, F64.mulQ, F64.add, F64.toI64, satI64, qtrunc,
      TILE_SIZE, abs_zero, ddaRow, intRangeFold_neg]
    rw [ddaLoop_step _ _ _ _ _ _ _ _ _ _ (by norm_num)]
    norm_num [F64.divQ, F64.mulQ, F64.add, F64.toI64, satI64, qtrunc,
      TILE_SIZE, abs_zero]
    rw [ddaRow, intRangeFold_pos _ _ _ _ (by norm_num)]
    norm_num [checkedInsertTbl, ddaCellIndex, castUsize, Int.toNat,
      SpatialHashTable.getCellByXY]
  rw [e1, e2]
  rfl

/-- C5 fails on the code: the clipped segment from `(10,60)` to `(50,60)` —
exactly horizontal, magnitude `40` — spans exactly the two horizontally
adjacent tiles `2` and `3` of the 2×2 grid (its endpoints map to cells `2`
and `3`), yet `insert_line` inserts it into neither: with
`dir.y.abs() = 0` the first row step yields `next_x = -inf` and
`next_x_tile = i64::MIN`, making the column range `0..(i64::MIN + 1)` empty,
and the walk then leaves the grid without inserting anything. -/
theorem insert_line_misses_adjacent_tiles :
    t80.getCell ⟨10, 60⟩ = some 2 ∧ t80.getCell ⟨45, 60⟩ = some 3 ∧
    resultContains (t80.insertLineClipped 0 ⟨10, 60⟩ ⟨50, 60⟩ 40) 2 0 = false ∧
    resultContains (t80.insertLineClipped 0 ⟨10, 60⟩ ⟨50, 60⟩ 40) 3 0 = false ∧
    resultIsError (t80.insertLineClipped 0 ⟨10, 60⟩ ⟨50, 60⟩ 40) = false := by
  have e1 : t80.insertLineClipped 0 ⟨10, 60⟩ ⟨50, 60⟩ 40
      = (ddaLoop 2 2 0 ⟨1/1000000, 0⟩ 1 (F64.fin (10 + 1/1000000)) 60 0 1
          (fun _ => ∅)).map (fun tb => { t80 with table := tb }) := by
    norm_num [SpatialHashTable.insertLineClipped, t80, vp80,
      SpatialHashTable.default, SpatialHashTable.initViewport, Vec2.sub,
      Vec2.add, Vec2.divScalar, Vec2.mulScalar, getUnlimitedCell, TILE_SIZE,
      Int.toNat]
  have e2 : ddaLoop 2 2 0 ⟨1/1000000, 0⟩ 1 (F64.fin (10 + 1/1000000)) 60 0 1
      (fun _ : ℕ => (∅ : Finset Entity)) = .ok (fun _ => ∅) := by
    rw [ddaLoop_step _ _ _ _ _ _ _ _ _ _ (by norm_num)]
    norm_num [F64.divQ, F64.mulQ, F64.add, F64.toI64, satI64, qtrunc,
      TILE_SIZE, abs_zero, ddaRow, intRangeFold_neg]
    rw [ddaLoop_stop _ _ _ _ _ _ _ _ _ _ (by norm_num)]
  refine ⟨?_, ?_, ?_, ?_, ?_⟩
  · norm_num [SpatialHashTable.getCell, SpatialHashTable.getCellByXY, t80,
      vp80, SpatialHashTable.default, SpatialHashTable.initViewport,
      TILE_SIZE, Int.toNat]
  · norm_num [SpatialHashTable.getCell, SpatialHashTable.getCellByXY, t80,
      vp80, SpatialHashTable.default, SpatialHashTable.initViewport,
      TILE_SIZE, Int.toNat]
  all_goals rw [e1, e2]; rfl

/-- C2 fails on the code: on the 4×1 grid of a 160×40 viewport, the circle
with actual center `(100,20)` and radius `60` qualifies tile `(2,0)` (its
box `[80,120]×[0,40]` lies within `[40,160]×[-40,80]` and contains the
center, so the closest-point distance is `0 ≤ 60`), but `insert_circle`
clamps the column range with `y_tiles = 1` instead of `x_tiles = 4`
(`right.min(self.y_tiles as i64)`), so only column `1` is visited: tile
`(1,0)` (cell `1`) receives the entity and the qualifying tile `(2,0)`
(cell `2`) is skipped. -/
theorem insert_circle_skips_qualifying_tile :
    (2 : ℕ) < t160.x_tiles ∧ (0 : ℕ) < t160.y_tiles ∧
    ((100 : ℚ) - 60 ≤ 2 * TILE_SIZE ∧ (2 * TILE_SIZE + TILE_SIZE : ℚ) ≤ 100 + 60 ∧
      (20 : ℚ) - 60 ≤ 0 * TILE_SIZE ∧ (0 * TILE_SIZE + TILE_SIZE : ℚ) ≤ 20 + 60) ∧
    (((AABB.mk (2 * TILE_SIZE) (0 * TILE_SIZE) TILE_SIZE
        TILE_SIZE).getClosestPointTo ⟨100, 20⟩).sub ⟨100, 20⟩).magnitudeSq ≤
      60 * 60 ∧
    resultContains (t160.insertCircle 0 ⟨⟨100, 20⟩, 60⟩ vp160)
      (t160.getCellByXY 2 0) 0 = false ∧
    resultContains (t160.insertCircle 0 ⟨⟨100, 20⟩, 60⟩ vp160)
      (t160.getCellByXY 1 0) 0 = true := by
  have e : t160.insertCircle 0 ⟨⟨100, 20⟩, 60⟩ vp160
      = .ok { t160 with
          table := Function.update (fun _ => ∅) 1 {0} } := by
    norm_num [SpatialHashTable.insertCircle, t160, vp160,
      SpatialHashTable.default, SpatialHashTable.initViewport,
      getUnlimitedCell, TILE_SIZE, Int.toNat, Vec2.sub, Vec2.magnitudeSq,
      AABB.getClosestPointTo, AABB.getFurthestPointTo, intRangeFold_pos,
      intRangeFold_neg, checkedInsertTbl, SpatialHashTable.getCellByXY,
      max_def, min_def]
    rfl
  refine ⟨?_, ?_, ?_, ?_, ?_, ?_⟩
  · norm_num [t160, vp160, SpatialHashTable.default,
      SpatialHashTable.initViewport, TILE_SIZE, Int.toNat]
  · norm_num [t160, vp160, SpatialHashTable.default,
      SpatialHashTable.initViewport, TILE_SIZE, Int.toNat]
  · norm_num [TILE_SIZE]
  · norm_num [TILE_SIZE, AABB.getClosestPointTo, Vec2.sub, Vec2.magnitudeSq,
      max_def, min_def]
  all_goals rw [e]; norm_num [resultContains, SpatialHashTable.getCellByXY,
    t160, vp160, SpatialHashTable.default, SpatialHashTable.initViewport,
    TILE_SIZE, Int.toNat, Function.update]

end GSK
